import Mathlib

/-!
# algo-fft WASM demo: benchmark driver contract and the page script `bench.js`

Two layers are embedded here.

* `Driver`: the benchmark driver `window.algofftBenchmark`.  Its implementation is
  not part of `src/`; `bench.js` only calls it.  The definitions in this namespace
  are therefore modelled from the specification (sections 3, 4.1, 6 and 7).
* `Bench`: the page script `src/examples/wasm-demo/bench.js`, translated function
  by function (`setStatus`, `formatTime`, `formatOps`, `formatThroughput`,
  `runBenchmark`), with the DOM elements it touches as explicit state.

Numbers are exact rationals: the finite JavaScript doubles and the wall-clock readings
are idealised, a division by zero gives `Infinity` or `NaN` as in JavaScript, and
`toFixed` is kept as data (the value handed to it and the digit count).
-/

namespace Driver

/-- Modelled from the spec: the `BenchmarkRequest` of section 3, whose driver is missing
from `src/`.  Sizes are integers and the budget is a rational so that malformed
requests (a size or a budget that is not positive) can be written down. -/
structure BenchmarkRequest where
  sizes : List Int
  minTimeBudget : ℚ

/-- Modelled from the spec: the tagged variant inside a `MeasurementRecord`
(section 3): either an average duration or an error message, never both. -/
inductive Outcome where
  | averageDurationNanos (avg : ℚ)
  | errorMessage (msg : String)

/-- Modelled from the spec: `MeasurementRecord` (section 3), one per requested size. -/
structure MeasurementRecord where
  size : Int
  outcome : Outcome

/-- The average of a record, present only on a success record. -/
def MeasurementRecord.averageDurationNanos? (r : MeasurementRecord) : Option ℚ :=
  match r.outcome with
  | .averageDurationNanos avg => some avg
  | .errorMessage _ => none

/-- The error message of a record, present only on a failure record. -/
def MeasurementRecord.errorMessage? (r : MeasurementRecord) : Option String :=
  match r.outcome with
  | .averageDurationNanos _ => none
  | .errorMessage msg => some msg

/-- Modelled from the spec: `RunAccumulator` (section 3), the per-size working state. -/
structure RunAccumulator where
  repetitions : Nat
  cumulativeTime : ℚ

/-- Modelled from the spec: the external Kernel Runner of section 6, an injected
capability.  `H` is the opaque input handle.  A failure carries its message.
`invoke` reports a non-negative elapsed time; its last argument is the number of
invocations already made for the current size, so that a runner may report a
different reading on every repetition (wall-clock noise) while staying stateless
between sizes, as section 5 assumes.  `releaseInput` has no observable result and
only shows up in the call log. -/
structure KernelRunner (H : Type) where
  allocateInput : Int → Except String H
  invoke : Int → H → Nat → Except String NNRat

/-- One use of the Kernel Runner by the driver, recorded in call order. -/
inductive Call where
  | allocateInput (size : Int)
  | invoke (size : Int)
  | releaseInput (size : Int)
  deriving DecidableEq

/-- Modelled from the spec: the error a whole `run` can fail with (section 7).  The
two per-size error kinds never leave the driver: they become failure records. -/
inductive DriverError where
  | InvalidRequest
  deriving DecidableEq

/-- Modelled from the spec: the input constraint of `run` (section 4.1): the size list
is non-empty, every size is positive and the minimum-time budget is positive. -/
def validRequest (req : BenchmarkRequest) : Prop :=
  req.sizes ≠ [] ∧ (∀ s ∈ req.sizes, 0 < s) ∧ 0 < req.minTimeBudget

instance (req : BenchmarkRequest) : Decidable (validRequest req) := by
  unfold validRequest; infer_instance

/-- Modelled from the spec: the repetition loop of section 4.1 step 2, a do-while loop:
invoke once, add the elapsed time, count the repetition, and go on while the
cumulative time is below the budget.  A failing invocation abandons the loop with
its message (step 4).  `fuel` bounds the repetitions tried; `none` means that the
loop had not finished within `fuel` repetitions.  The calls made are returned with
the result. -/
def repetitionLoop {H : Type} (k : KernelRunner H) (size : Int) (buf : H) (budget : ℚ) :
    Nat → RunAccumulator → Option (List Call × Except String RunAccumulator)
  | 0, _ => none
  | fuel + 1, acc =>
    match k.invoke size buf acc.repetitions with
    | .error msg => some ([Call.invoke size], .error msg)
    | .ok d =>
      let acc1 : RunAccumulator :=
        { repetitions := acc.repetitions + 1, cumulativeTime := acc.cumulativeTime + d }
      if acc1.cumulativeTime < budget then
        match repetitionLoop k size buf budget fuel acc1 with
        | none => none
        | some (calls, r) => some (Call.invoke size :: calls, r)
      else
        some ([Call.invoke size], .ok acc1)

/-- Modelled from the spec: the measurement of one size (section 4.1 steps 1 to 4):
allocate the buffer (a failure becomes a failure record), run the repetition loop
from an empty accumulator, release the buffer on both paths, and emit the record
with `averageDurationNanos = cumulativeTime / repetitions` or with the captured
failure message. -/
def measureSize {H : Type} (k : KernelRunner H) (budget : ℚ) (fuel : Nat) (size : Int) :
    Option (List Call × MeasurementRecord) :=
  match k.allocateInput size with
  | .error msg => some ([Call.allocateInput size], ⟨size, .errorMessage msg⟩)
  | .ok buf =>
    match repetitionLoop k size buf budget fuel ⟨0, 0⟩ with
    | none => none
    | some (calls, .error msg) =>
      some (Call.allocateInput size :: calls ++ [Call.releaseInput size],
            ⟨size, .errorMessage msg⟩)
    | some (calls, .ok acc) =>
      some (Call.allocateInput size :: calls ++ [Call.releaseInput size],
            ⟨size, .averageDurationNanos (acc.cumulativeTime / acc.repetitions)⟩)

/-- Modelled from the spec: the sizes are measured strictly one after another, in
request order, one record each (sections 4.1 and 5). -/
def measureAll {H : Type} (k : KernelRunner H) (budget : ℚ) (fuel : Nat) :
    List Int → Option (List Call × List MeasurementRecord)
  | [] => some ([], [])
  | size :: rest =>
    match measureSize k budget fuel size with
    | none => none
    | some (calls, record) =>
      match measureAll k budget fuel rest with
      | none => none
      | some (calls1, records) => some (calls ++ calls1, record :: records)

/-- Modelled from the spec: `run` (section 4.1).  A malformed request fails with
`InvalidRequest` before any measurement begins; otherwise every size is measured.
The result is `none` when some repetition loop had not finished within `fuel`
repetitions, and otherwise the calls made on the Kernel Runner together with the
records or the error. -/
def run {H : Type} (k : KernelRunner H) (fuel : Nat) (req : BenchmarkRequest) :
    Option (List Call × Except DriverError (List MeasurementRecord)) :=
  if validRequest req then
    match measureAll k req.minTimeBudget fuel req.sizes with
    | none => none
    | some (calls, records) => some (calls, .ok records)
  else
    some ([], .error DriverError.InvalidRequest)

end Driver

namespace Bench

/-- The inline style properties of the status element that `setStatus` writes. -/
structure Style where
  background : String
  color : String
  borderColor : String
  deriving DecidableEq

/-- The element `#status`: its text and its inline style. -/
structure StatusEl where
  textContent : String
  style : Style
  deriving DecidableEq

/-- The button `#run-bench`. -/
structure RunButton where
  disabled : Bool
  textContent : String
  deriving DecidableEq

/-- A JavaScript number as `bench.js` computes with it: a finite double, idealised as an
exact rational, or one of the non-finite doubles `Infinity`, `-Infinity` and `NaN`.
There is a single zero: the negative zero of doubles is not represented. -/
inductive JsNumber where
  | finite (q : ℚ)
  | infinity
  | negInfinity
  | nan
  deriving DecidableEq

/-- The JavaScript operator `/` on numbers.  A finite non-zero number divided by zero is
an infinity of its sign, zero divided by zero is `NaN`, a finite number divided by
an infinity is zero, an infinity divided by a finite number is an infinity (of the
opposite sign when the divisor is negative), and an infinity divided by an infinity
is `NaN`; any operation on `NaN` is `NaN`. -/
def JsNumber.div : JsNumber → JsNumber → JsNumber
  | .finite x, .finite y =>
    if y = 0 then
      if 0 < x then .infinity else if x < 0 then .negInfinity else .nan
    else .finite (x / y)
  | .finite _, .infinity => .finite 0
  | .finite _, .negInfinity => .finite 0
  | .infinity, .finite y => if 0 ≤ y then .infinity else .negInfinity
  | .negInfinity, .finite y => if 0 ≤ y then .negInfinity else .infinity
  | .infinity, .infinity => .nan
  | .infinity, .negInfinity => .nan
  | .negInfinity, .infinity => .nan
  | .negInfinity, .negInfinity => .nan
  | .nan, _ => .nan
  | .finite _, .nan => .nan
  | .infinity, .nan => .nan
  | .negInfinity, .nan => .nan

/-- The JavaScript operator `*` on numbers.  An infinity times a non-zero number is an
infinity of the product's sign, an infinity times zero is `NaN`; any operation on
`NaN` is `NaN`. -/
def JsNumber.mul : JsNumber → JsNumber → JsNumber
  | .finite x, .finite y => .finite (x * y)
  | .finite x, .infinity =>
    if 0 < x then .infinity else if x < 0 then .negInfinity else .nan
  | .finite x, .negInfinity =>
    if 0 < x then .negInfinity else if x < 0 then .infinity else .nan
  | .infinity, .finite y =>
    if 0 < y then .infinity else if y < 0 then .negInfinity else .nan
  | .negInfinity, .finite y =>
    if 0 < y then .negInfinity else if y < 0 then .infinity else .nan
  | .infinity, .infinity => .infinity
  | .infinity, .negInfinity => .negInfinity
  | .negInfinity, .infinity => .negInfinity
  | .negInfinity, .negInfinity => .infinity
  | .nan, _ => .nan
  | .finite _, .nan => .nan
  | .infinity, .nan => .nan
  | .negInfinity, .nan => .nan

/-- The JavaScript operator `>` on numbers: false as soon as one side is `NaN`. -/
def JsNumber.gt : JsNumber → JsNumber → Bool
  | .finite x, .finite y => decide (y < x)
  | .finite _, .negInfinity => true
  | .infinity, .finite _ => true
  | .infinity, .negInfinity => true
  | _, _ => false

/-- The text of a template literal made of `value.toFixed(digits)`, a blank and a unit.
The rounding done by `toFixed` is not interpreted: the value handed to it and the
digit count are kept (`toFixed` of a non-finite value is its name, "Infinity",
"-Infinity" or "NaN", whatever the digit count). -/
structure Formatted where
  value : JsNumber
  digits : Nat
  unit : String
  deriving DecidableEq

/-- One element of the array returned by `window.algofftBenchmark`, as `bench.js` reads
it: `res.size`, `res.error` (absent on a success record) and `res.avgNs`. -/
structure Res where
  size : Int
  error : Option String
  avgNs : ℚ

/-- A row of the table body `#results-body`.  `running` is the placeholder row written
before the driver is called; `error` is the row whose only cell reads
"Error for N=size: error"; `timing` is the row of four cells. -/
inductive Row where
  | running
  | error (size : Int) (error : String)
  | timing (size : Int) (time : Formatted) (ops : Formatted) (throughput : Formatted)
  deriving DecidableEq

/-- A thrown JavaScript error, of which `bench.js` reads `err.message`. -/
structure JsError where
  message : String
  deriving DecidableEq

/-- The object literal handed to `window.algofftBenchmark`. -/
structure BenchmarkArgs where
  sizes : List Int
  minTime : Int
  deriving DecidableEq

/-- The external driver `window.algofftBenchmark`, as seen from `bench.js`: it returns an
array of records or throws. -/
abbrev BenchmarkFn := BenchmarkArgs → Except JsError (List Res)

/-- The state that `bench.js` reads and writes: the closure variable `wasmReady`, the
three DOM elements, and two logs, the arguments of each driver call and the errors
written with `console.error`. -/
structure Page where
  wasmReady : Bool
  statusEl : StatusEl
  runButton : RunButton
  resultsBody : List Row
  driverCalls : List BenchmarkArgs
  console : List JsError

/-- The function `setStatus(text, ok)` of `bench.js` lines 8 to 17. -/
def setStatus (p : Page) (text : String) (ok : Bool) : Page :=
  { p with
    statusEl :=
      { textContent := text
        style :=
          { background := if ok then "rgba(12, 123, 110, 0.12)" else "rgba(211, 107, 52, 0.12)"
            color := if ok then "#0a5c52" else "#a3471f"
            borderColor :=
              if ok then "rgba(12, 123, 110, 0.25)" else "rgba(211, 107, 52, 0.3)" } } }

/-- The function `formatTime(ns)` of `bench.js` lines 19 to 22, on a finite `ns`. -/
def formatTime (ns : ℚ) : Formatted :=
  if ns < 1000 then ⟨.finite ns, 0, "ns"⟩
  else ⟨.finite (ns / 1000), 2, "µs"⟩

/-- The function `formatOps(ns)` of `bench.js` lines 24 to 29, on a finite `ns`. -/
def formatOps (ns : ℚ) : Formatted :=
  let ops : JsNumber := JsNumber.div (.finite 1000000000) (.finite ns)
  if JsNumber.gt ops (.finite 1000000) then ⟨JsNumber.div ops (.finite 1000000), 2, "M/s"⟩
  else if JsNumber.gt ops (.finite 1000) then ⟨JsNumber.div ops (.finite 1000), 2, "k/s"⟩
  else ⟨ops, 0, "/s"⟩

/-- The constant `bytesPerOp` of `formatThroughput`, line 32: 8 bytes of input and
8 bytes of output per element. -/
def bytesPerOp (size : Int) : ℚ := size * 16

/-- The constant `opsPerSec` of `formatThroughput`, line 33. -/
def opsPerSec (ns : ℚ) : JsNumber := JsNumber.div (.finite 1000000000) (.finite ns)

/-- The constant `bytesPerSec` of `formatThroughput`, line 34. -/
def bytesPerSec (size : Int) (ns : ℚ) : JsNumber :=
  JsNumber.mul (.finite (bytesPerOp size)) (opsPerSec ns)

/-- The constant `mbPerSec` of `formatThroughput`, line 35. -/
def mbPerSec (size : Int) (ns : ℚ) : JsNumber :=
  JsNumber.div (bytesPerSec size ns) (.finite 1000000)

/-- The function `formatThroughput(size, ns)` of `bench.js` lines 31 to 37. -/
def formatThroughput (size : Int) (ns : ℚ) : Formatted :=
  ⟨mbPerSec size ns, 2, "MB/s"⟩

/-- JavaScript truthiness of `res.error`: an absent property and the empty string are
falsy, every other string is truthy. -/
def truthy : Option String → Bool
  | none => false
  | some s => s != ""

/-- The callback of `results.forEach` in `runBenchmark`, lines 59 to 75: one row is
appended to the table body, the error row when `res.error` is truthy (followed by
`return`) and the timing row otherwise. -/
def renderRecord (p : Page) (res : Res) : Page :=
  if truthy res.error then
    { p with resultsBody := p.resultsBody ++ [Row.error res.size (res.error.getD "")] }
  else
    { p with
      resultsBody := p.resultsBody ++
        [Row.timing res.size (formatTime res.avgNs) (formatOps res.avgNs)
          (formatThroughput res.size res.avgNs)] }

/-- The array literal `sizes` of `runBenchmark`, line 50. -/
def sizes : List Int := [16, 32, 64, 128, 256, 512, 1024, 2048, 4096, 8192]

/-- The `try` block of `runBenchmark`, lines 50 to 75: call the driver, clear the table
body, render every record.  The second component is the error thrown out of the
block, if any; the state reached before the throw is kept. -/
def tryBlock (algofftBenchmark : BenchmarkFn) (p : Page) : Page × Option JsError :=
  let args : BenchmarkArgs := { sizes := sizes, minTime := 500 }
  let p1 : Page := { p with driverCalls := p.driverCalls ++ [args] }
  match algofftBenchmark args with
  | .error err => (p1, some err)
  | .ok results =>
    let p2 : Page := { p1 with resultsBody := [] }
    (results.foldl renderRecord p2, none)

/-- The function `runBenchmark` of `bench.js` lines 39 to 84.  The `await` of line 47
only yields to the UI and changes nothing here.  The second component is the error
that leaves the function (the rejection of its promise), if any. -/
def runBenchmark (algofftBenchmark : BenchmarkFn) (p : Page) : Page × Option JsError :=
  if !p.wasmReady then (p, none)
  else
    let p1 : Page :=
      { p with
        runButton := { disabled := true, textContent := "Running..." }
        resultsBody := [Row.running] }
    let afterTry := tryBlock algofftBenchmark p1
    let afterCatch : Page × Option JsError :=
      match afterTry.2 with
      | some err =>
        (setStatus { afterTry.1 with console := afterTry.1.console ++ [err] }
          ("Benchmark failed: " ++ err.message) false, none)
      | none => (afterTry.1, none)
    ({ afterCatch.1 with runButton := { disabled := false, textContent := "Run Benchmark" } },
      afterCatch.2)

/-- The request of the driver contract that corresponds to the object literal passed by
`bench.js`: the same sizes, and `minTime` as the minimum-time budget. -/
def toRequest (args : BenchmarkArgs) : Driver.BenchmarkRequest :=
  { sizes := args.sizes, minTimeBudget := args.minTime }

end Bench

/-! ## Sample inputs -/

namespace Driver

/-- A mock Kernel Runner that never fails and takes exactly `d` per call. -/
def mockRunner (d : NNRat) : KernelRunner Unit :=
  { allocateInput := fun _ => .ok ()
    invoke := fun _ _ _ => .ok d }

/-- The runner `k`, except that every invocation for size `S` fails with `msg`. -/
def failingOn {H : Type} (S : Int) (msg : String) (k : KernelRunner H) : KernelRunner H :=
  { allocateInput := k.allocateInput
    invoke := fun size buf i => if size = S then .error msg else k.invoke size buf i }

/-- The runner `k`, except that the invocation number `j` (counted from 0) for size `S`
fails with `msg`. -/
def failingAt {H : Type} (S : Int) (j : Nat) (msg : String) (k : KernelRunner H) :
    KernelRunner H :=
  { allocateInput := k.allocateInput
    invoke := fun size buf i => if size = S ∧ i = j then .error msg else k.invoke size buf i }

end Driver

namespace Bench

/-- A page on which the WASM module has loaded: status "WASM ready", button enabled,
empty table, nothing logged. -/
def readyPage : Page :=
  { wasmReady := true
    statusEl :=
      { textContent := "WASM ready"
        style :=
          { background := "rgba(12, 123, 110, 0.12)"
            color := "#0a5c52"
            borderColor := "rgba(12, 123, 110, 0.25)" } }
    runButton := { disabled := false, textContent := "Run Benchmark" }
    resultsBody := []
    driverCalls := []
    console := [] }

/-- A driver that throws an error with the message "boom". -/
def throwingDriver : BenchmarkFn := fun _ => .error { message := "boom" }

/-- A driver that returns a success record whose average is 0, a failure record, and a
record whose `error` is the empty string. -/
def threeRecordDriver : BenchmarkFn := fun _ =>
  .ok [{ size := 16, error := none, avgNs := 0 },
       { size := 32, error := some "plan failed", avgNs := 0 },
       { size := 64, error := some "", avgNs := 2000 }]

end Bench

/-! ## The page script -/

namespace Bench

theorem JsNumber.div_finite (x y : ℚ) (hy : y ≠ 0) :
    JsNumber.div (.finite x) (.finite y) = .finite (x / y) := by
  simp [JsNumber.div, hy]

/-- At a duration of 0 the rate is `Infinity`, shown in M/s, as `1e9 / 0` is in JavaScript. -/
theorem formatOps_zero : formatOps 0 = ⟨.infinity, 2, "M/s"⟩ := by
  simp [formatOps, JsNumber.div, JsNumber.gt]

/-- At a duration of 0 the throughput of a positive size is `Infinity` and the one of
size 0 is `NaN`. -/
theorem formatThroughput_zero (size : Int) :
    (0 < size → formatThroughput size 0 = ⟨.infinity, 2, "MB/s"⟩) ∧
      formatThroughput 0 0 = ⟨.nan, 2, "MB/s"⟩ := by
  constructor
  · intro h
    have hq : (0 : ℚ) < (size : ℚ) * 16 := by
      have : (0 : ℚ) < size := by exact_mod_cast h
      linarith
    simp [formatThroughput, mbPerSec, bytesPerSec, bytesPerOp, opsPerSec, JsNumber.div,
      JsNumber.mul, hq]
  · simp [formatThroughput, mbPerSec, bytesPerSec, bytesPerOp, opsPerSec, JsNumber.div,
      JsNumber.mul]

theorem foldl_renderRecord_wasmReady (results : List Res) (p : Page) :
    (results.foldl renderRecord p).wasmReady = p.wasmReady := by
  induction results generalizing p with
  | nil => rfl
  | cons res rest ih =>
    simp only [List.foldl_cons, ih]
    unfold renderRecord
    split <;> rfl

theorem foldl_renderRecord_driverCalls (results : List Res) (p : Page) :
    (results.foldl renderRecord p).driverCalls = p.driverCalls := by
  induction results generalizing p with
  | nil => rfl
  | cons res rest ih =>
    simp only [List.foldl_cons, ih]
    unfold renderRecord
    split <;> rfl

theorem foldl_renderRecord_statusEl (results : List Res) (p : Page) :
    (results.foldl renderRecord p).statusEl = p.statusEl := by
  induction results generalizing p with
  | nil => rfl
  | cons res rest ih =>
    simp only [List.foldl_cons, ih]
    unfold renderRecord
    split <;> rfl

theorem foldl_renderRecord_console (results : List Res) (p : Page) :
    (results.foldl renderRecord p).console = p.console := by
  induction results generalizing p with
  | nil => rfl
  | cons res rest ih =>
    simp only [List.foldl_cons, ih]
    unfold renderRecord
    split <;> rfl

/-- The row that the callback of `forEach` appends for one record. -/
theorem renderRecord_resultsBody (p : Page) (res : Res) :
    (renderRecord p res).resultsBody = p.resultsBody ++
      [match res.error with
        | some e =>
          if e = "" then
            Row.timing res.size (formatTime res.avgNs) (formatOps res.avgNs)
              (formatThroughput res.size res.avgNs)
          else Row.error res.size e
        | none =>
          Row.timing res.size (formatTime res.avgNs) (formatOps res.avgNs)
            (formatThroughput res.size res.avgNs)] := by
  unfold renderRecord truthy
  cases h : res.error with
  | none => simp
  | some e =>
    by_cases he : e = "" <;> simp [he]

theorem foldl_renderRecord_resultsBody (results : List Res) (p : Page) :
    (results.foldl renderRecord p).resultsBody = p.resultsBody ++
      results.map (fun res =>
        match res.error with
        | some e =>
          if e = "" then
            Row.timing res.size (formatTime res.avgNs) (formatOps res.avgNs)
              (formatThroughput res.size res.avgNs)
          else Row.error res.size e
        | none =>
          Row.timing res.size (formatTime res.avgNs) (formatOps res.avgNs)
            (formatThroughput res.size res.avgNs)) := by
  induction results generalizing p with
  | nil => simp
  | cons res rest ih =>
    simp only [List.foldl_cons, ih, renderRecord_resultsBody, List.map_cons,
      List.append_assoc, List.singleton_append]

end Bench

namespace Bench

/-- C6: when the page is ready and the driver returns `results`, `runBenchmark` leaves in
the table body exactly the rows of the records, in record order and whatever the
table held before (it is cleared first): for each record the error row, naming its
size and error, when `res.error` is a non-empty string, and otherwise the timing row
made of the size, `formatTime`, `formatOps` and `formatThroughput` of `avgNs`; so
the table ends with as many rows as there are records.  The render loop itself,
started on any page, appends exactly these rows to the rows already there. -/
theorem runBenchmark_renders_one_row_per_record (algofftBenchmark : BenchmarkFn) (p : Page)
    (results : List Res) (hready : p.wasmReady = true)
    (hres : algofftBenchmark { sizes := sizes, minTime := 500 } = .ok results) :
    (runBenchmark algofftBenchmark p).1.resultsBody =
        results.map (fun res =>
          match res.error with
          | some e =>
            if e = "" then
              Row.timing res.size (formatTime res.avgNs) (formatOps res.avgNs)
                (formatThroughput res.size res.avgNs)
            else Row.error res.size e
          | none =>
            Row.timing res.size (formatTime res.avgNs) (formatOps res.avgNs)
              (formatThroughput res.size res.avgNs)) ∧
      (runBenchmark algofftBenchmark p).1.resultsBody.length = results.length ∧
      ∀ q : Page, (results.foldl renderRecord q).resultsBody = q.resultsBody ++
        results.map (fun res =>
          match res.error with
          | some e =>
            if e = "" then
              Row.timing res.size (formatTime res.avgNs) (formatOps res.avgNs)
                (formatThroughput res.size res.avgNs)
            else Row.error res.size e
          | none =>
            Row.timing res.size (formatTime res.avgNs) (formatOps res.avgNs)
              (formatThroughput res.size res.avgNs)) := by
  have hbody : (runBenchmark algofftBenchmark p).1.resultsBody =
      (results.foldl renderRecord
        { p with
          runButton := { disabled := true, textContent := "Running..." }
          resultsBody := []
          driverCalls := p.driverCalls ++ [{ sizes := sizes, minTime := 500 }] }).resultsBody := by
    simp only [runBenchmark, tryBlock, hready, hres]
    rfl
  refine ⟨?_, ?_, fun q => foldl_renderRecord_resultsBody results q⟩
  · rw [hbody, foldl_renderRecord_resultsBody]
    simp
  · rw [hbody, foldl_renderRecord_resultsBody]
    simp

/-- Witness of C6 on a ready page with a driver returning a success record for 16 whose
average is 0, a failure record for 32, and a record for 64 whose error is empty. -/
theorem runBenchmark_renders_one_row_per_record_witness :
    (runBenchmark threeRecordDriver readyPage).1.resultsBody =
      [Row.timing 16 ⟨.finite 0, 0, "ns"⟩ ⟨.infinity, 2, "M/s"⟩ ⟨.infinity, 2, "MB/s"⟩,
       Row.error 32 "plan failed",
       Row.timing 64 ⟨.finite 2, 2, "µs"⟩ ⟨.finite 500, 2, "k/s"⟩ ⟨.finite 512, 2, "MB/s"⟩] :=
  (runBenchmark_renders_one_row_per_record threeRecordDriver readyPage
    [{ size := 16, error := none, avgNs := 0 },
     { size := 32, error := some "plan failed", avgNs := 0 },
     { size := 64, error := some "", avgNs := 2000 }] rfl rfl).1.trans (by
      simp [formatTime, formatOps, formatThroughput, mbPerSec, bytesPerSec, bytesPerOp,
        opsPerSec, JsNumber.div, JsNumber.mul, JsNumber.gt]
      norm_num)

/-- C7: `runBenchmark` calls the driver exactly when the page is ready, once, with the
ten sizes 16, 32, ..., 8192, which are the powers 2^k for k = 4..13 in strictly
increasing order and all positive, and with the minimum time 500, which is positive;
this request satisfies the input constraint of the driver, so that with no Kernel
Runner and no fuel does the driver answer it with `InvalidRequest`. -/
theorem runBenchmark_request_is_valid (algofftBenchmark : BenchmarkFn) (p : Page) :
    (runBenchmark algofftBenchmark p).1.driverCalls =
        (if p.wasmReady then p.driverCalls ++ [{ sizes := sizes, minTime := 500 }]
         else p.driverCalls) ∧
      sizes = [16, 32, 64, 128, 256, 512, 1024, 2048, 4096, 8192] ∧
      sizes = (List.range 10).map (fun k => (2 : Int) ^ (k + 4)) ∧
      sizes ≠ [] ∧
      List.Pairwise (fun a b => a < b) sizes ∧
      (∀ s ∈ sizes, 0 < s) ∧
      (0 : Int) < ({ sizes := sizes, minTime := 500 } : BenchmarkArgs).minTime ∧
      Driver.validRequest (toRequest { sizes := sizes, minTime := 500 }) ∧
      ∀ (H : Type) (k : Driver.KernelRunner H) (fuel : Nat) (calls : List Driver.Call),
        Driver.run k fuel (toRequest { sizes := sizes, minTime := 500 }) ≠
          some (calls, .error Driver.DriverError.InvalidRequest) := by
  have hvalid : Driver.validRequest (toRequest { sizes := sizes, minTime := 500 }) := by
    refine ⟨by simp [toRequest, sizes], ?_, by simp [toRequest]⟩
    intro s hs
    simp only [toRequest, sizes, List.mem_cons, List.mem_singleton, List.not_mem_nil,
      or_false] at hs
    omega
  refine ⟨?_, rfl, by decide, by simp [sizes], by decide, by decide, by decide, hvalid, ?_⟩
  · by_cases hready : p.wasmReady = true
    · cases hres : algofftBenchmark { sizes := sizes, minTime := 500 } with
      | error err => simp [runBenchmark, tryBlock, hready, hres, setStatus]
      | ok results =>
        simp [runBenchmark, tryBlock, hready, hres, foldl_renderRecord_driverCalls]
    · simp [runBenchmark, hready]
  · intro H k fuel calls h
    unfold Driver.run at h
    rw [if_pos hvalid] at h
    split at h <;> simp at h

/-- Witness of C7 on a ready page: the one driver call made carries the ten sizes and the
minimum time 500. -/
theorem runBenchmark_request_is_valid_witness :
    (runBenchmark throwingDriver readyPage).1.driverCalls =
      [{ sizes := [16, 32, 64, 128, 256, 512, 1024, 2048, 4096, 8192], minTime := 500 }] :=
  (runBenchmark_request_is_valid throwingDriver readyPage).1.trans (by decide)

/-- C8: for a duration `ns > 0`, the value that `formatThroughput` hands to `toFixed(2)` is
computed from 16 bytes per element, `bytesPerOp = 16 * size`, and equals
`(16 * size) * (10^9 / ns) / 10^6 = 16000 * size / ns`; the unit is MB/s. -/
theorem formatThroughput_value (size : Int) (ns : ℚ) (hns : 0 < ns) :
    bytesPerOp size = 16 * size ∧
      (formatThroughput size ns).value =
        JsNumber.finite ((16 * size) * (10 ^ 9 / ns) / 10 ^ 6) ∧
      (formatThroughput size ns).value = JsNumber.finite (16000 * size / ns) ∧
      (formatThroughput size ns).digits = 2 ∧
      (formatThroughput size ns).unit = "MB/s" := by
  have hne : ns ≠ 0 := ne_of_gt hns
  have hval : (formatThroughput size ns).value =
      JsNumber.finite ((size : ℚ) * 16 * (1000000000 / ns) / 1000000) := by
    simp only [formatThroughput, mbPerSec, bytesPerSec, bytesPerOp, opsPerSec,
      JsNumber.div_finite _ _ hne, JsNumber.mul]
    rw [JsNumber.div_finite _ _ (by norm_num)]
  refine ⟨?_, ?_, ?_, rfl, rfl⟩
  · unfold bytesPerOp; ring
  · rw [hval, JsNumber.finite.injEq]
    field_simp
    ring
  · rw [hval, JsNumber.finite.injEq]
    field_simp
    ring

/-- Witness of C8: size 1024 measured at 2000 ns per transform gives 8192 MB/s. -/
theorem formatThroughput_value_witness :
    (0 : ℚ) < 2000 ∧ (formatThroughput 1024 2000).value = JsNumber.finite 8192 :=
  ⟨by norm_num, by
    rw [(formatThroughput_value 1024 2000 (by norm_num)).2.2.1]
    norm_num⟩

/-- C9: for a duration `ns > 0`, `formatOps` shows the rate in M/s exactly when
`ns < 1000`, in k/s exactly when `1000 ≤ ns < 1000000` and in /s exactly when
`ns ≥ 1000000`; `formatTime` shows the duration itself in ns exactly when `formatOps`
shows M/s, and otherwise shows `ns / 1000` in µs; at `ns = 1000` the pair is µs
with k/s. -/
theorem formatOps_unit (ns : ℚ) (hns : 0 < ns) :
    ((formatOps ns).unit = "M/s" ↔ ns < 1000) ∧
      ((formatOps ns).unit = "k/s" ↔ 1000 ≤ ns ∧ ns < 1000000) ∧
      ((formatOps ns).unit = "/s" ↔ 1000000 ≤ ns) ∧
      (formatTime ns = ⟨.finite ns, 0, "ns"⟩ ↔ (formatOps ns).unit = "M/s") ∧
      (formatTime ns = ⟨.finite (ns / 1000), 2, "µs"⟩ ↔ (formatOps ns).unit ≠ "M/s") ∧
      formatTime 1000 = ⟨.finite 1, 2, "µs"⟩ ∧
      formatOps 1000 = ⟨.finite 1000, 2, "k/s"⟩ := by
  have hne : ns ≠ 0 := ne_of_gt hns
  have h1 : (1000000 < 1000000000 / ns) ↔ ns < 1000 := by
    rw [lt_div_iff₀ hns]
    constructor <;> intro h <;> linarith
  have h2 : (1000 < 1000000000 / ns) ↔ ns < 1000000 := by
    rw [lt_div_iff₀ hns]
    constructor <;> intro h <;> linarith
  have hops : (formatOps ns).unit =
      if ns < 1000 then "M/s" else if ns < 1000000 then "k/s" else "/s" := by
    unfold formatOps
    simp only [JsNumber.div_finite _ _ hne, JsNumber.gt, decide_eq_true_eq, h1, h2]
    split_ifs <;> rfl
  refine ⟨?_, ?_, ?_, ?_, ?_, ?_, ?_⟩
  · rw [hops]
    split_ifs with ha hb
    · simp [ha]
    · simp [ha]
    · simp [ha]
  · rw [hops]
    split_ifs with ha hb
    · simp; intro h; linarith
    · simp [hb]; linarith
    · simp; intro _; linarith
  · rw [hops]
    split_ifs with ha hb
    · simp; linarith
    · simp; linarith
    · simp; linarith
  · rw [hops]
    unfold formatTime
    split_ifs with ha hb
    · simp
    · simp
    · simp
  · rw [hops]
    unfold formatTime
    split_ifs with ha hb
    · simp
    · simp
    · simp
  · unfold formatTime
    norm_num
  · simp only [formatOps, JsNumber.div_finite _ _ (by norm_num : (1000 : ℚ) ≠ 0), JsNumber.gt]
    norm_num

/-- Witness of C9 at 250 ns: the rate is shown in M/s. -/
theorem formatOps_unit_witness : (0 : ℚ) < 250 ∧ (formatOps 250).unit = "M/s" :=
  ⟨by norm_num, (formatOps_unit 250 (by norm_num)).1.mpr (by norm_num)⟩

/-- C10: if `wasmReady` is false, `runBenchmark` returns the page unchanged (in particular
the driver is not called) and no error leaves it.  If `wasmReady` is true, then
whether the driver returns or throws, the button ends enabled with the text
"Run Benchmark" and no error leaves `runBenchmark`; when the driver throws `err`,
the status text is "Benchmark failed: " followed by `err.message`, with the
colours of the not-ok styling, and `err` is written to the console. -/
theorem runBenchmark_button_and_status (algofftBenchmark : BenchmarkFn) (p : Page) :
    (p.wasmReady = false → runBenchmark algofftBenchmark p = (p, none)) ∧
      (p.wasmReady = true →
        (runBenchmark algofftBenchmark p).1.runButton =
            { disabled := false, textContent := "Run Benchmark" } ∧
          (runBenchmark algofftBenchmark p).2 = none ∧
          (runBenchmark algofftBenchmark p).1.wasmReady = true ∧
          (∀ results, algofftBenchmark { sizes := sizes, minTime := 500 } = .ok results →
            (runBenchmark algofftBenchmark p).1.statusEl = p.statusEl ∧
              (runBenchmark algofftBenchmark p).1.console = p.console) ∧
          ∀ err, algofftBenchmark { sizes := sizes, minTime := 500 } = .error err →
            (runBenchmark algofftBenchmark p).1.statusEl =
                { textContent := "Benchmark failed: " ++ err.message
                  style :=
                    { background := "rgba(211, 107, 52, 0.12)"
                      color := "#a3471f"
                      borderColor := "rgba(211, 107, 52, 0.3)" } } ∧
              (runBenchmark algofftBenchmark p).1.statusEl = (setStatus p
                ("Benchmark failed: " ++ err.message) false).statusEl ∧
              (runBenchmark algofftBenchmark p).1.console = p.console ++ [err] ∧
              (runBenchmark algofftBenchmark p).1.resultsBody = [Row.running]) := by
  refine ⟨fun hready => by simp [runBenchmark, hready], fun hready => ?_⟩
  cases hres : algofftBenchmark { sizes := sizes, minTime := 500 } with
  | error err =>
    refine ⟨?_, ?_, ?_, ?_, ?_⟩
    · simp [runBenchmark, tryBlock, hready, hres]
    · simp [runBenchmark, tryBlock, hready, hres]
    · simp [runBenchmark, tryBlock, hready, hres, setStatus]
    · intro results h; cases h
    · intro err1 h
      cases h
      simp [runBenchmark, tryBlock, hready, hres, setStatus]
  | ok results =>
    refine ⟨?_, ?_, ?_, ?_, ?_⟩
    · simp [runBenchmark, tryBlock, hready, hres]
    · simp [runBenchmark, tryBlock, hready, hres]
    · simp [runBenchmark, tryBlock, hready, hres, foldl_renderRecord_wasmReady]
    · intro results1 h
      cases h
      constructor
      · simp [runBenchmark, tryBlock, hready, hres, foldl_renderRecord_statusEl]
      · simp [runBenchmark, tryBlock, hready, hres, foldl_renderRecord_console]
    · intro err h; cases h

end Bench

namespace Bench

/-- Witness of C10 on a ready page whose driver throws "boom". -/
theorem runBenchmark_button_and_status_witness :
    readyPage.wasmReady = true ∧
      (runBenchmark throwingDriver readyPage).1.runButton =
        { disabled := false, textContent := "Run Benchmark" } ∧
      (runBenchmark throwingDriver readyPage).1.statusEl.textContent =
        "Benchmark failed: boom" :=
  ⟨rfl, ((runBenchmark_button_and_status throwingDriver readyPage).2 rfl).1, by
    rw [(((runBenchmark_button_and_status throwingDriver readyPage).2 rfl).2.2.2.2
      { message := "boom" } rfl).1]
    decide⟩

end Bench

/-! ## The benchmark driver -/

namespace Driver

theorem measureSize_size {H : Type} (k : KernelRunner H) (budget : ℚ) (fuel : Nat) (size : Int)
    (calls : List Call) (record : MeasurementRecord)
    (h : measureSize k budget fuel size = some (calls, record)) : record.size = size := by
  unfold measureSize at h
  split at h
  · simp only [Option.some.injEq, Prod.mk.injEq] at h
    rw [← h.2]
  · split at h
    · simp at h
    · simp only [Option.some.injEq, Prod.mk.injEq] at h
      rw [← h.2]
    · simp only [Option.some.injEq, Prod.mk.injEq] at h
      rw [← h.2]

theorem measureAll_cons_eq_some {H : Type} (k : KernelRunner H) (budget : ℚ) (fuel : Nat)
    (size : Int) (rest : List Int) (calls : List Call) (records : List MeasurementRecord)
    (h : measureAll k budget fuel (size :: rest) = some (calls, records)) :
    ∃ c r c1 rs, measureSize k budget fuel size = some (c, r) ∧
      measureAll k budget fuel rest = some (c1, rs) ∧ calls = c ++ c1 ∧ records = r :: rs := by
  unfold measureAll at h
  split at h
  · simp at h
  · rename_i c r hms
    split at h
    · simp at h
    · rename_i c1 rs hma
      simp only [Option.some.injEq, Prod.mk.injEq] at h
      exact ⟨c, r, c1, rs, hms, hma, h.1.symm, h.2.symm⟩

theorem measureAll_sizes {H : Type} (k : KernelRunner H) (budget : ℚ) (fuel : Nat) :
    ∀ (sizes : List Int) (calls : List Call) (records : List MeasurementRecord),
      measureAll k budget fuel sizes = some (calls, records) →
      records.map (fun r => r.size) = sizes := by
  intro sizes
  induction sizes with
  | nil =>
    intro calls records h
    simp only [measureAll, Option.some.injEq, Prod.mk.injEq] at h
    rw [← h.2]
    rfl
  | cons size rest ih =>
    intro calls records h
    obtain ⟨c, r, c1, rs, hms, hma, _, hrs⟩ := measureAll_cons_eq_some k budget fuel size rest
      calls records h
    rw [hrs, List.map_cons, ih c1 rs hma, measureSize_size k budget fuel size c r hms]

/-- A loop whose successful invocations all take at least `ε` finishes within `fuel`
repetitions as soon as `fuel` readings of `ε` reach the budget. -/
theorem repetitionLoop_terminates {H : Type} (k : KernelRunner H) (size : Int) (buf : H)
    (budget : ℚ) (ε : NNRat)
    (hprog : ∀ i d, k.invoke size buf i = .ok d → ε ≤ d) :
    ∀ (fuel : Nat) (acc : RunAccumulator), 1 ≤ fuel →
      budget ≤ acc.cumulativeTime + fuel * ε →
      ∃ r, repetitionLoop k size buf budget fuel acc = some r := by
  intro fuel
  induction fuel with
  | zero => intro acc h; omega
  | succ n ih =>
    intro acc _ hle
    unfold repetitionLoop
    cases hinv : k.invoke size buf acc.repetitions with
    | error msg => exact ⟨_, rfl⟩
    | ok d =>
      have hd : (ε : ℚ) ≤ d := by exact_mod_cast hprog _ _ hinv
      simp only
      by_cases hlt : acc.cumulativeTime + ↑d < budget
      · rw [if_pos hlt]
        have hn : 1 ≤ n := by
          by_contra hn0
          have : n = 0 := by omega
          subst this
          push_cast at hle
          linarith
        have hle1 : budget ≤ (acc.cumulativeTime + ↑d) + n * ε := by
          push_cast at hle
          linarith
        obtain ⟨r, hr⟩ := ih ⟨acc.repetitions + 1, acc.cumulativeTime + d⟩ hn hle1
        rw [hr]
        exact ⟨_, rfl⟩
      · rw [if_neg hlt]
        exact ⟨_, rfl⟩

theorem measureSize_terminates {H : Type} (k : KernelRunner H) (budget : ℚ) (ε : NNRat)
    (hε : 0 < ε) (hprog : ∀ size buf i d, k.invoke size buf i = .ok d → ε ≤ d) (size : Int) :
    ∃ r, measureSize k budget (⌈budget / ε⌉₊ + 1) size = some r := by
  unfold measureSize
  cases halloc : k.allocateInput size with
  | error msg => exact ⟨_, rfl⟩
  | ok buf =>
    have hεq : (0 : ℚ) < ε := by exact_mod_cast hε
    have hle : budget ≤ (0 : ℚ) + ((⌈budget / ε⌉₊ + 1 : Nat) : ℚ) * ε := by
      have h1 : budget / ε ≤ (⌈budget / ε⌉₊ : ℚ) := Nat.le_ceil _
      have h2 : budget ≤ (⌈budget / ε⌉₊ : ℚ) * ε := (div_le_iff₀ hεq).mp h1
      push_cast
      linarith
    obtain ⟨r, hr⟩ := repetitionLoop_terminates k size buf budget ε (hprog size buf)
      (⌈budget / ε⌉₊ + 1) ⟨0, 0⟩ (by omega) hle
    simp only
    rw [hr]
    obtain ⟨calls, res⟩ := r
    cases res with
    | error msg => exact ⟨_, rfl⟩
    | ok acc => exact ⟨_, rfl⟩

theorem measureAll_terminates {H : Type} (k : KernelRunner H) (budget : ℚ) (ε : NNRat)
    (hε : 0 < ε) (hprog : ∀ size buf i d, k.invoke size buf i = .ok d → ε ≤ d) :
    ∀ sizes : List Int, ∃ r, measureAll k budget (⌈budget / ε⌉₊ + 1) sizes = some r := by
  intro sizes
  induction sizes with
  | nil => exact ⟨_, rfl⟩
  | cons size rest ih =>
    obtain ⟨r, hr⟩ := measureSize_terminates k budget ε hε hprog size
    obtain ⟨rs, hrs⟩ := ih
    unfold measureAll
    rw [hr, hrs]
    exact ⟨_, rfl⟩

end Driver

namespace Driver

/-- C1: for a valid request and any Kernel Runner, whatever `run` returns is a sequence
of records of the same length as `request.sizes` whose i-th record carries the i-th
size (never an error of the whole run, also when measurements fail); and `run` does
return such a sequence, given enough fuel, from every runner whose successful
invocations take at least some `ε > 0`. -/
theorem run_preserves_sizes {H : Type} (k : KernelRunner H) (req : BenchmarkRequest)
    (hvalid : validRequest req) :
    (∀ fuel calls result, run k fuel req = some (calls, result) →
        ∃ records, result = .ok records ∧ records.length = req.sizes.length ∧
          ∀ i : Nat, (records[i]?).map (fun r => r.size) = req.sizes[i]?) ∧
      ∀ ε : NNRat, 0 < ε → (∀ size buf i d, k.invoke size buf i = .ok d → ε ≤ d) →
        ∃ fuel calls records, run k fuel req = some (calls, .ok records) ∧
          records.length = req.sizes.length ∧
          ∀ i : Nat, (records[i]?).map (fun r => r.size) = req.sizes[i]? := by
  have hshape : ∀ fuel calls result, run k fuel req = some (calls, result) →
      ∃ records, result = .ok records ∧ records.length = req.sizes.length ∧
        ∀ i : Nat, (records[i]?).map (fun r => r.size) = req.sizes[i]? := by
    intro fuel calls result h
    unfold run at h
    rw [if_pos hvalid] at h
    split at h
    · simp at h
    · rename_i c records hma
      simp only [Option.some.injEq, Prod.mk.injEq] at h
      have hmap := measureAll_sizes k req.minTimeBudget fuel req.sizes c records hma
      refine ⟨records, h.2.symm, ?_, ?_⟩
      · rw [← hmap, List.length_map]
      · intro i
        rw [← List.getElem?_map, hmap]
  refine ⟨hshape, ?_⟩
  intro ε hε hprog
  obtain ⟨⟨calls, records⟩, hr⟩ := measureAll_terminates k req.minTimeBudget ε hε hprog req.sizes
  have hrun : run k (⌈req.minTimeBudget / ε⌉₊ + 1) req = some (calls, .ok records) := by
    unfold run
    rw [if_pos hvalid, hr]
  obtain ⟨records1, h1, h2, h3⟩ := hshape _ _ _ hrun
  cases h1
  exact ⟨_, calls, records, hrun, h2, h3⟩

/-- Witness of C1: the request for sizes 16 and 32 with budget 25, against the runner that
takes 10 per call but fails on size 32, returns two records, for 16 and for 32. -/
theorem run_preserves_sizes_witness :
    validRequest { sizes := [16, 32], minTimeBudget := 25 } ∧
      ∃ records, run (failingOn 32 "boom" (mockRunner 10)) 3
          { sizes := [16, 32], minTimeBudget := 25 } =
            some ([Call.allocateInput 16, Call.invoke 16, Call.invoke 16, Call.invoke 16,
              Call.releaseInput 16, Call.allocateInput 32, Call.invoke 32,
              Call.releaseInput 32], .ok records) ∧
        records.length = 2 ∧ records.map (fun r => r.size) = [16, 32] := by
  have hvalid : validRequest { sizes := [16, 32], minTimeBudget := 25 } := by
    refine ⟨by simp, ?_, by norm_num⟩
    intro s hs
    simp only [List.mem_cons, List.mem_singleton, List.not_mem_nil, or_false] at hs
    omega
  refine ⟨hvalid, ?_⟩
  have hrun : run (failingOn 32 "boom" (mockRunner 10)) 3
      { sizes := [16, 32], minTimeBudget := 25 } =
        some ([Call.allocateInput 16, Call.invoke 16, Call.invoke 16, Call.invoke 16,
          Call.releaseInput 16, Call.allocateInput 32, Call.invoke 32,
          Call.releaseInput 32],
          .ok [⟨16, .averageDurationNanos ((0 + 10 + 10 + 10) / 3)⟩,
            ⟨32, .errorMessage "boom"⟩]) := by
    unfold run
    rw [if_pos hvalid]
    simp [measureAll, measureSize, repetitionLoop, failingOn, mockRunner]
    norm_num
  obtain ⟨records, h1, h2, h3⟩ := (run_preserves_sizes _ _ hvalid).1 _ _ _ hrun
  cases h1
  exact ⟨_, hrun, h2, rfl⟩

/-- C5: `run` fails with `InvalidRequest` exactly when the request is malformed (the size
list is empty, or some size is not positive, or the budget is not positive),
whatever the Kernel Runner and the fuel; it then makes no call at all on the Kernel
Runner (no allocation, no invocation) and produces no record. -/
theorem run_invalidRequest_iff {H : Type} (k : KernelRunner H) (fuel : Nat)
    (req : BenchmarkRequest) :
    ((∃ calls, run k fuel req = some (calls, .error DriverError.InvalidRequest)) ↔
        (req.sizes = [] ∨ (∃ s ∈ req.sizes, s ≤ 0) ∨ req.minTimeBudget ≤ 0)) ∧
      ((req.sizes = [] ∨ (∃ s ∈ req.sizes, s ≤ 0) ∨ req.minTimeBudget ≤ 0) →
        run k fuel req = some ([], .error DriverError.InvalidRequest)) ∧
      ∀ calls err, run k fuel req = some (calls, .error err) → calls = [] := by
  have hmal : ¬ validRequest req ↔
      (req.sizes = [] ∨ (∃ s ∈ req.sizes, s ≤ 0) ∨ req.minTimeBudget ≤ 0) := by
    unfold validRequest
    constructor
    · intro h
      by_contra hcon
      push_neg at hcon
      exact h ⟨hcon.1, hcon.2.1, hcon.2.2⟩
    · rintro (h | ⟨s, hs, hle⟩ | h) hv
      · exact hv.1 h
      · exact absurd (hv.2.1 s hs) (not_lt.mpr hle)
      · exact absurd hv.2.2 (not_lt.mpr h)
  have hrun : ∀ calls err, run k fuel req = some (calls, .error err) →
      ¬ validRequest req ∧ calls = [] := by
    intro calls err h
    unfold run at h
    split at h
    · split at h <;> simp at h
    · rename_i hv
      simp only [Option.some.injEq, Prod.mk.injEq] at h
      exact ⟨hv, h.1.symm⟩
  refine ⟨⟨?_, ?_⟩, ?_, fun calls err h => (hrun calls err h).2⟩
  · rintro ⟨calls, h⟩
    exact hmal.mp (hrun calls _ h).1
  · intro h
    refine ⟨[], ?_⟩
    unfold run
    rw [if_neg (hmal.mpr h)]
  · intro h
    unfold run
    rw [if_neg (hmal.mpr h)]

/-- Witness of C5: the request with an empty size list fails with `InvalidRequest` and
makes no call on the Kernel Runner. -/
theorem run_invalidRequest_iff_witness :
    run (mockRunner 10) 5 { sizes := [], minTimeBudget := 1 } =
      some ([], .error DriverError.InvalidRequest) :=
  (run_invalidRequest_iff (mockRunner 10) 5 { sizes := [], minTimeBudget := 1 }).2.1
    (Or.inl rfl)

end Driver

namespace Driver

/-- With a runner that reports `d > 0` on every call, a loop that still needs `j ≥ 1`
repetitions to reach the budget performs exactly `j` of them. -/
theorem repetitionLoop_fixed {H : Type} (k : KernelRunner H) (size : Int) (buf : H)
    (budget : ℚ) (d : NNRat) (hd : 0 < d) (hinv : ∀ i, k.invoke size buf i = .ok d) :
    ∀ (j fuel : Nat) (acc : RunAccumulator), 1 ≤ j → j ≤ fuel →
      acc.cumulativeTime + ((j : ℚ) - 1) * d < budget →
      budget ≤ acc.cumulativeTime + j * d →
      repetitionLoop k size buf budget fuel acc =
        some (List.replicate j (Call.invoke size),
          .ok ⟨acc.repetitions + j, acc.cumulativeTime + j * d⟩) := by
  have hdq : (0 : ℚ) < d := by exact_mod_cast hd
  intro j
  induction j with
  | zero => intro fuel acc h; omega
  | succ n ih =>
    intro fuel acc _ hfuel hlt hle
    obtain ⟨f, rfl⟩ : ∃ f, fuel = f + 1 := ⟨fuel - 1, by omega⟩
    unfold repetitionLoop
    rw [hinv]
    simp only
    push_cast at hlt hle
    by_cases hn : n = 0
    · subst hn
      have hnot : ¬ acc.cumulativeTime + ↑d < budget := by
        simp only [Nat.cast_zero, zero_add, one_mul] at hle
        linarith
      rw [if_neg hnot]
      simp
    · have hn1 : 1 ≤ n := by omega
      have hnq : (1 : ℚ) ≤ n := by exact_mod_cast hn1
      have hcont : acc.cumulativeTime + ↑d < budget := by
        have : (d : ℚ) ≤ n * d := by nlinarith
        linarith
      rw [if_pos hcont]
      rw [ih f ⟨acc.repetitions + 1, acc.cumulativeTime + d⟩ hn1 (by omega)
        (by simp only; linarith) (by simp only; linarith)]
      simp only [List.replicate_succ, Option.some.injEq, Prod.mk.injEq, true_and,
        Except.ok.injEq, RunAccumulator.mk.injEq]
      constructor
      · omega
      · push_cast
        ring

/-- The number of repetitions of the fixed-duration loop, `⌈budget / d⌉`, is at least 1
and is the first count whose cumulative time reaches the budget. -/
theorem ceil_budget_bounds (budget : ℚ) (d : NNRat) (hd : 0 < d) (hB : 0 < budget) :
    1 ≤ ⌈budget / d⌉₊ ∧ ((⌈budget / d⌉₊ : ℚ) - 1) * d < budget ∧
      budget ≤ (⌈budget / d⌉₊ : ℚ) * d := by
  have hdq : (0 : ℚ) < d := by exact_mod_cast hd
  have hpos : 0 < budget / d := div_pos hB hdq
  refine ⟨Nat.one_le_iff_ne_zero.mpr (Nat.ceil_pos.mpr hpos).ne', ?_, ?_⟩
  · have h := Nat.ceil_lt_add_one hpos.le
    have h1 : (⌈budget / d⌉₊ : ℚ) - 1 < budget / d := by linarith
    exact (lt_div_iff₀ hdq).mp h1
  · exact (div_le_iff₀ hdq).mp (Nat.le_ceil _)

theorem measureSize_fixed {H : Type} (k : KernelRunner H) (d : NNRat) (hd : 0 < d)
    (halloc : ∀ size, ∃ buf, k.allocateInput size = .ok buf)
    (hinv : ∀ size buf i, k.invoke size buf i = .ok d)
    (budget : ℚ) (hB : 0 < budget) (fuel : Nat) (hfuel : ⌈budget / d⌉₊ ≤ fuel) (size : Int) :
    measureSize k budget fuel size =
      some (Call.allocateInput size ::
          List.replicate ⌈budget / d⌉₊ (Call.invoke size) ++ [Call.releaseInput size],
        ⟨size, .averageDurationNanos d⟩) := by
  obtain ⟨h1, h2, h3⟩ := ceil_budget_bounds budget d hd hB
  obtain ⟨buf, hbuf⟩ := halloc size
  have hloop := repetitionLoop_fixed k size buf budget d hd (hinv size buf) ⌈budget / d⌉₊ fuel
    ⟨0, 0⟩ h1 hfuel (by simpa using h2) (by simpa using h3)
  unfold measureSize
  rw [hbuf]
  simp only
  rw [hloop]
  simp only [zero_add, Option.some.injEq, Prod.mk.injEq, true_and, MeasurementRecord.mk.injEq,
    Outcome.averageDurationNanos.injEq]
  have hdq : (0 : ℚ) < d := by exact_mod_cast hd
  have hn : (0 : ℚ) < (⌈budget / d⌉₊ : ℚ) := by exact_mod_cast h1
  field_simp

theorem measureAll_fixed {H : Type} (k : KernelRunner H) (d : NNRat) (hd : 0 < d)
    (halloc : ∀ size, ∃ buf, k.allocateInput size = .ok buf)
    (hinv : ∀ size buf i, k.invoke size buf i = .ok d)
    (budget : ℚ) (hB : 0 < budget) (fuel : Nat) (hfuel : ⌈budget / d⌉₊ ≤ fuel) :
    ∀ sizes : List Int, measureAll k budget fuel sizes =
      some (sizes.flatMap (fun size => Call.allocateInput size ::
          List.replicate ⌈budget / d⌉₊ (Call.invoke size) ++ [Call.releaseInput size]),
        sizes.map (fun size => ⟨size, .averageDurationNanos d⟩)) := by
  intro sizes
  induction sizes with
  | nil => rfl
  | cons size rest ih =>
    unfold measureAll
    rw [measureSize_fixed k d hd halloc hinv budget hB fuel hfuel size, ih]
    simp

end Driver

namespace Driver

/-- C2: if the Kernel Runner never fails and reports the same duration `d > 0` on every
call, then for every budget `B > 0` the repetition loop of a size performs exactly
`⌈B / d⌉` repetitions (at least 1) whenever the fuel allows that many, the record
of the size carries `averageDurationNanos = d` exactly, and `run` on a valid request
returns one such record per size.  With `d = 1000000` and `B = 500000000` this is
500 repetitions and the average 1000000 for each of the sizes 16 and 32; with
`d = 10` and `B = 1` it is 1 repetition and the average 10 for size 8. -/
theorem fixed_duration_repetitions {H : Type} (k : KernelRunner H) (d : NNRat) (hd : 0 < d)
    (halloc : ∀ size, ∃ buf, k.allocateInput size = .ok buf)
    (hinv : ∀ size buf i, k.invoke size buf i = .ok d) :
    (∀ budget : ℚ, 0 < budget →
        1 ≤ ⌈budget / d⌉₊ ∧
        ∀ fuel, ⌈budget / d⌉₊ ≤ fuel →
          (∀ size buf, repetitionLoop k size buf budget fuel ⟨0, 0⟩ =
            some (List.replicate ⌈budget / d⌉₊ (Call.invoke size),
              .ok ⟨⌈budget / d⌉₊, ⌈budget / d⌉₊ * d⟩)) ∧
          (∀ size, measureSize k budget fuel size =
            some (Call.allocateInput size ::
                List.replicate ⌈budget / d⌉₊ (Call.invoke size) ++ [Call.releaseInput size],
              ⟨size, .averageDurationNanos d⟩)) ∧
          ∀ sizes, validRequest ⟨sizes, budget⟩ →
            run k fuel ⟨sizes, budget⟩ =
              some (sizes.flatMap (fun size => Call.allocateInput size ::
                  List.replicate ⌈budget / d⌉₊ (Call.invoke size) ++ [Call.releaseInput size]),
                .ok (sizes.map (fun size => ⟨size, .averageDurationNanos d⟩)))) ∧
      (d = 1000000 → ∀ fuel, 500 ≤ fuel →
        run k fuel ⟨[16, 32], 500000000⟩ =
          some ((Call.allocateInput 16 :: List.replicate 500 (Call.invoke 16) ++
                [Call.releaseInput 16]) ++
              (Call.allocateInput 32 :: List.replicate 500 (Call.invoke 32) ++
                [Call.releaseInput 32]),
            .ok [⟨16, .averageDurationNanos 1000000⟩, ⟨32, .averageDurationNanos 1000000⟩])) ∧
      (d = 10 → ∀ fuel, 1 ≤ fuel →
        run k fuel ⟨[8], 1⟩ =
          some ([Call.allocateInput 8, Call.invoke 8, Call.releaseInput 8],
            .ok [⟨8, .averageDurationNanos 10⟩])) := by
  have hrun : ∀ (budget : ℚ), 0 < budget → ∀ fuel, ⌈budget / d⌉₊ ≤ fuel →
      ∀ sizes, validRequest ⟨sizes, budget⟩ →
        run k fuel ⟨sizes, budget⟩ =
          some (sizes.flatMap (fun size => Call.allocateInput size ::
              List.replicate ⌈budget / d⌉₊ (Call.invoke size) ++ [Call.releaseInput size]),
            .ok (sizes.map (fun size => ⟨size, .averageDurationNanos d⟩))) := by
    intro budget hB fuel hfuel sizes hvalid
    unfold run
    rw [if_pos hvalid]
    simp only
    rw [measureAll_fixed k d hd halloc hinv budget hB fuel hfuel sizes]
  refine ⟨?_, ?_, ?_⟩
  · intro budget hB
    obtain ⟨h1, h2, h3⟩ := ceil_budget_bounds budget d hd hB
    refine ⟨h1, fun fuel hfuel => ⟨?_, ?_, hrun budget hB fuel hfuel⟩⟩
    · intro size buf
      have hloop := repetitionLoop_fixed k size buf budget d hd (hinv size buf) ⌈budget / d⌉₊
        fuel ⟨0, 0⟩ h1 hfuel (by simpa using h2) (by simpa using h3)
      simpa using hloop
    · intro size
      exact measureSize_fixed k d hd halloc hinv budget hB fuel hfuel size
  · intro hd1 fuel hfuel
    subst hd1
    have hceil : ⌈(500000000 : ℚ) / ((1000000 : NNRat) : ℚ)⌉₊ = 500 := by
      have : (500000000 : ℚ) / ((1000000 : NNRat) : ℚ) = ((500 : Nat) : ℚ) := by
        push_cast
        norm_num
      rw [this, Nat.ceil_natCast]
    have hvalid : validRequest ⟨[16, 32], 500000000⟩ := by
      refine ⟨by simp, ?_, by norm_num⟩
      intro s hs
      simp only [List.mem_cons, List.mem_singleton, List.not_mem_nil, or_false] at hs
      omega
    have h := hrun 500000000 (by norm_num) fuel (by rw [hceil]; exact hfuel) [16, 32] hvalid
    rw [h, hceil]
    simp only [List.flatMap_cons, List.flatMap_nil, List.append_nil, List.map_cons,
      List.map_nil, NNRat.cast_ofNat]
  · intro hd1 fuel hfuel
    subst hd1
    have hceil : ⌈(1 : ℚ) / ((10 : NNRat) : ℚ)⌉₊ = 1 := by
      rw [Nat.ceil_eq_iff (by norm_num)]
      push_cast
      norm_num
    have hvalid : validRequest ⟨[8], 1⟩ := by
      refine ⟨by simp, ?_, by norm_num⟩
      intro s hs
      simp only [List.mem_singleton] at hs
      omega
    have h := hrun 1 (by norm_num) fuel (by rw [hceil]; exact hfuel) [8] hvalid
    rw [h, hceil]
    simp

/-- Witness of C2: the mock runner taking exactly 10 per call, asked for size 8 with
budget 1, is invoked once and the record carries the average 10. -/
theorem fixed_duration_repetitions_witness :
    (0 : NNRat) < 10 ∧
      run (mockRunner 10) 1 ⟨[8], 1⟩ =
        some ([Call.allocateInput 8, Call.invoke 8, Call.releaseInput 8],
          .ok [⟨8, .averageDurationNanos 10⟩]) :=
  ⟨by norm_num,
    (fixed_duration_repetitions (mockRunner 10) 10 (by norm_num) (fun _ => ⟨(), rfl⟩)
      (fun _ _ _ => rfl)).2.2 rfl 1 (le_refl 1)⟩

/-- What a loop that completes has done: it invoked the runner once per repetition, at
least once, never decreased the cumulative time, and stopped at or above the budget. -/
theorem repetitionLoop_ok {H : Type} (k : KernelRunner H) (size : Int) (buf : H) (budget : ℚ) :
    ∀ (fuel : Nat) (acc : RunAccumulator) (calls : List Call) (acc1 : RunAccumulator),
      repetitionLoop k size buf budget fuel acc = some (calls, .ok acc1) →
      acc1.repetitions = acc.repetitions + calls.length ∧ 1 ≤ calls.length ∧
        acc.cumulativeTime ≤ acc1.cumulativeTime ∧
        calls = List.replicate calls.length (Call.invoke size) ∧
        budget ≤ acc1.cumulativeTime := by
  intro fuel
  induction fuel with
  | zero =>
    intro acc calls acc1 h
    simp [repetitionLoop] at h
  | succ n ih =>
    intro acc calls acc1 h
    unfold repetitionLoop at h
    cases hinv : k.invoke size buf acc.repetitions with
    | error msg =>
      rw [hinv] at h
      simp at h
    | ok d =>
      rw [hinv] at h
      simp only at h
      have hd : (0 : ℚ) ≤ d := NNRat.coe_nonneg d
      by_cases hlt : acc.cumulativeTime + ↑d < budget
      · rw [if_pos hlt] at h
        split at h
        · simp at h
        · rename_i c r hrec
          simp only [Option.some.injEq, Prod.mk.injEq] at h
          obtain ⟨hc, hr⟩ := h
          subst hc hr
          obtain ⟨h1, h2, h3, h4, h5⟩ := ih _ c acc1 hrec
          simp only at h1 h3
          refine ⟨?_, ?_, ?_, ?_, h5⟩
          · simp only [List.length_cons]; omega
          · simp
          · linarith
          · rw [List.length_cons, List.replicate_succ, ← h4]
      · rw [if_neg hlt] at h
        simp only [Option.some.injEq, Prod.mk.injEq, Except.ok.injEq] at h
        obtain ⟨hc, hr⟩ := h
        subst hc hr
        refine ⟨by simp, by simp, ?_, by simp, ?_⟩
        · simp only; linarith
        · simp only; linarith

end Driver

namespace Driver

/-- C3: whenever the measurement of a size yields a success record, the repetition loop
behind it completed with at least one repetition (one invocation per repetition),
the record's `averageDurationNanos` is the cumulative time divided by that number
of repetitions, and it is non-negative and carries no error message; and when the
first invocation already takes at least the budget, the loop stops after exactly
one repetition (given fuel for one) and the record carries that reading. -/
theorem repetitions_at_least_one {H : Type} (k : KernelRunner H) (budget : ℚ) (size : Int) :
    (∀ fuel calls record avg, measureSize k budget fuel size = some (calls, record) →
        record.averageDurationNanos? = some avg →
        0 ≤ avg ∧ record.errorMessage? = none ∧
          ∃ buf loopCalls acc, k.allocateInput size = .ok buf ∧
            repetitionLoop k size buf budget fuel ⟨0, 0⟩ = some (loopCalls, .ok acc) ∧
            1 ≤ acc.repetitions ∧ 0 ≤ acc.cumulativeTime ∧
            avg = acc.cumulativeTime / acc.repetitions ∧
            loopCalls = List.replicate acc.repetitions (Call.invoke size) ∧
            calls = Call.allocateInput size :: loopCalls ++ [Call.releaseInput size]) ∧
      (∀ buf d fuel, k.invoke size buf 0 = .ok d → budget ≤ d →
        repetitionLoop k size buf budget (fuel + 1) ⟨0, 0⟩ =
          some ([Call.invoke size], .ok ⟨1, d⟩)) ∧
      ∀ buf d fuel, k.allocateInput size = .ok buf → k.invoke size buf 0 = .ok d → budget ≤ d →
        measureSize k budget (fuel + 1) size =
          some ([Call.allocateInput size, Call.invoke size, Call.releaseInput size],
            ⟨size, .averageDurationNanos d⟩) := by
  have hone : ∀ buf (d : NNRat) fuel, k.invoke size buf 0 = .ok d → budget ≤ d →
      repetitionLoop k size buf budget (fuel + 1) ⟨0, 0⟩ =
        some ([Call.invoke size], .ok ⟨1, d⟩) := by
    intro buf d fuel hinv hle
    unfold repetitionLoop
    simp only [hinv, zero_add]
    rw [if_neg (not_lt.mpr hle)]
  refine ⟨?_, hone, ?_⟩
  · intro fuel calls record avg h havg
    unfold measureSize at h
    cases halloc : k.allocateInput size with
    | error msg =>
      rw [halloc] at h
      simp only [Option.some.injEq, Prod.mk.injEq] at h
      rw [← h.2] at havg
      simp [MeasurementRecord.averageDurationNanos?] at havg
    | ok buf =>
      rw [halloc] at h
      simp only at h
      split at h
      · simp at h
      · simp only [Option.some.injEq, Prod.mk.injEq] at h
        rw [← h.2] at havg
        simp [MeasurementRecord.averageDurationNanos?] at havg
      · rename_i loopCalls acc hloop
        simp only [Option.some.injEq, Prod.mk.injEq] at h
        obtain ⟨hc, hr⟩ := h
        subst hr
        simp only [MeasurementRecord.averageDurationNanos?, Option.some.injEq] at havg
        obtain ⟨h1, h2, h3, h4, _⟩ := repetitionLoop_ok k size buf budget fuel ⟨0, 0⟩
          loopCalls acc hloop
        simp only [zero_add] at h1 h3
        refine ⟨?_, rfl, buf, loopCalls, acc, rfl, hloop, by omega, h3, havg.symm, ?_, hc.symm⟩
        · rw [← havg]
          exact div_nonneg h3 (Nat.cast_nonneg _)
        · rw [h1]
          exact h4
  · intro buf d fuel halloc hinv hle
    unfold measureSize
    rw [halloc]
    simp only
    rw [hone buf d fuel hinv hle]
    simp

/-- Witness of C3: a first reading of 10 against the budget 1 ends the loop after one
repetition. -/
theorem repetitions_at_least_one_witness :
    (1 : ℚ) ≤ ((10 : NNRat) : ℚ) ∧
      repetitionLoop (mockRunner 10) 8 () 1 (0 + 1) ⟨0, 0⟩ =
        some ([Call.invoke 8], .ok ⟨1, ((10 : NNRat) : ℚ)⟩) :=
  ⟨by norm_num,
    (repetitions_at_least_one (mockRunner 10) 1 8).2.1 () 10 0 rfl (by norm_num)⟩

theorem repetitionLoop_congr {H : Type} (k k1 : KernelRunner H) (size : Int) (buf : H)
    (budget : ℚ) (hinv : ∀ i, k1.invoke size buf i = k.invoke size buf i) :
    ∀ (fuel : Nat) (acc : RunAccumulator),
      repetitionLoop k1 size buf budget fuel acc = repetitionLoop k size buf budget fuel acc := by
  intro fuel
  induction fuel with
  | zero => intro acc; rfl
  | succ n ih =>
    intro acc
    unfold repetitionLoop
    rw [hinv]
    cases k.invoke size buf acc.repetitions with
    | error msg => rfl
    | ok d =>
      simp only
      rw [ih]

/-- The record of a size depends on the runner only through what it does for that size. -/
theorem measureSize_congr {H : Type} (k k1 : KernelRunner H) (budget : ℚ) (fuel : Nat)
    (size : Int) (halloc : k1.allocateInput size = k.allocateInput size)
    (hinv : ∀ buf i, k1.invoke size buf i = k.invoke size buf i) :
    measureSize k1 budget fuel size = measureSize k budget fuel size := by
  unfold measureSize
  rw [halloc]
  cases k.allocateInput size with
  | error msg => rfl
  | ok buf =>
    simp only
    rw [repetitionLoop_congr k k1 size buf budget (hinv buf)]

theorem repetitionLoop_mono {H : Type} (k : KernelRunner H) (size : Int) (buf : H)
    (budget : ℚ) :
    ∀ (fuel fuel1 : Nat) (acc : RunAccumulator) (r : List Call × Except String RunAccumulator),
      fuel ≤ fuel1 → repetitionLoop k size buf budget fuel acc = some r →
      repetitionLoop k size buf budget fuel1 acc = some r := by
  intro fuel
  induction fuel with
  | zero =>
    intro fuel1 acc r _ h
    simp [repetitionLoop] at h
  | succ n ih =>
    intro fuel1 acc r hle h
    obtain ⟨m, rfl⟩ : ∃ m, fuel1 = m + 1 := ⟨fuel1 - 1, by omega⟩
    unfold repetitionLoop at h ⊢
    cases hinv : k.invoke size buf acc.repetitions with
    | error msg =>
      rw [hinv] at h
      exact h
    | ok d =>
      rw [hinv] at h
      simp only at h ⊢
      by_cases hlt : acc.cumulativeTime + ↑d < budget
      · rw [if_pos hlt] at h ⊢
        split at h
        · simp at h
        · rename_i c r0 hrec
          rw [ih m _ _ (by omega) hrec]
          exact h
      · rw [if_neg hlt] at h ⊢
        exact h

theorem measureSize_mono {H : Type} (k : KernelRunner H) (budget : ℚ) (fuel fuel1 : Nat)
    (hle : fuel ≤ fuel1) (size : Int) (r : List Call × MeasurementRecord)
    (h : measureSize k budget fuel size = some r) :
    measureSize k budget fuel1 size = some r := by
  unfold measureSize at h ⊢
  cases halloc : k.allocateInput size with
  | error msg =>
    rw [halloc] at h
    exact h
  | ok buf =>
    rw [halloc] at h
    simp only at h ⊢
    cases hloop : repetitionLoop k size buf budget fuel ⟨0, 0⟩ with
    | none =>
      rw [hloop] at h
      simp at h
    | some r0 =>
      rw [repetitionLoop_mono k size buf budget fuel fuel1 ⟨0, 0⟩ r0 hle hloop]
      rw [hloop] at h
      exact h

theorem measureAll_mono {H : Type} (k : KernelRunner H) (budget : ℚ) (fuel fuel1 : Nat)
    (hle : fuel ≤ fuel1) :
    ∀ (sizes : List Int) (r : List Call × List MeasurementRecord),
      measureAll k budget fuel sizes = some r → measureAll k budget fuel1 sizes = some r := by
  intro sizes
  induction sizes with
  | nil =>
    intro r h
    simpa [measureAll] using h
  | cons size rest ih =>
    intro r h
    obtain ⟨calls, records⟩ := r
    obtain ⟨c, r1, c1, rs, hms, hma, hc, hrs⟩ := measureAll_cons_eq_some k budget fuel size rest
      calls records h
    unfold measureAll
    rw [measureSize_mono k budget fuel fuel1 hle size (c, r1) hms, ih (c1, rs) hma, hc, hrs]

/-- A loop whose first `j` invocations succeed with readings `d 0, ..., d (j-1)` that
stay below the budget, and whose invocation number `j` fails, ends with that failure
after `j + 1` invocations. -/
theorem repetitionLoop_failure {H : Type} (k : KernelRunner H) (S : Int) (buf : H)
    (budget : ℚ) (msg : String) (j : Nat) (d : Nat → NNRat)
    (hok : ∀ i, i < j → k.invoke S buf i = .ok (d i))
    (hbelow : ∑ l ∈ Finset.range j, (d l : ℚ) < budget)
    (herr : k.invoke S buf j = .error msg) :
    ∀ (n a fuel : Nat), a + n = j → n < fuel →
      repetitionLoop k S buf budget fuel ⟨a, ∑ l ∈ Finset.range a, (d l : ℚ)⟩ =
        some (List.replicate (n + 1) (Call.invoke S), .error msg) := by
  intro n
  induction n with
  | zero =>
    intro a fuel ha hfuel
    obtain ⟨f, rfl⟩ : ∃ f, fuel = f + 1 := ⟨fuel - 1, by omega⟩
    have haj : a = j := by omega
    subst haj
    unfold repetitionLoop
    simp only [herr]
    rfl
  | succ m ih =>
    intro a fuel ha hfuel
    obtain ⟨f, rfl⟩ : ∃ f, fuel = f + 1 := ⟨fuel - 1, by omega⟩
    have haj : a < j := by omega
    have hsum : ∑ l ∈ Finset.range (a + 1), (d l : ℚ) < budget := by
      refine lt_of_le_of_lt ?_ hbelow
      apply Finset.sum_le_sum_of_subset_of_nonneg
      · intro x hx
        simp only [Finset.mem_range] at hx ⊢
        omega
      · intro x _ _
        exact NNRat.coe_nonneg _
    unfold repetitionLoop
    simp only [hok a haj]
    rw [← Finset.sum_range_succ (fun l => (d l : ℚ)) a, if_pos hsum,
      ih (a + 1) f (by omega) (by omega)]
    rfl

/-- A size whose allocation fails, or whose loop reaches a failing invocation, gets the
failure record with the message of that failure. -/
theorem measureSize_failure {H : Type} (k : KernelRunner H) (budget : ℚ) (fuel : Nat)
    (S : Int) (msg : String) (j : Nat) (d : Nat → NNRat) (hfuel : j < fuel)
    (hfail : k.allocateInput S = .error msg ∨
      ∃ buf, k.allocateInput S = .ok buf ∧
        (∀ i, i < j → k.invoke S buf i = .ok (d i)) ∧
        ∑ l ∈ Finset.range j, (d l : ℚ) < budget ∧
        k.invoke S buf j = .error msg) :
    ∃ calls, measureSize k budget fuel S = some (calls, ⟨S, .errorMessage msg⟩) := by
  unfold measureSize
  rcases hfail with h | ⟨buf, h1, hok, hbelow, herr⟩
  · rw [h]
    exact ⟨_, rfl⟩
  · rw [h1]
    simp only
    have hloop := repetitionLoop_failure k S buf budget msg j d hok hbelow herr j 0 fuel
      (by omega) hfuel
    rw [Finset.sum_range_zero] at hloop
    rw [hloop]
    exact ⟨_, rfl⟩

theorem measureAll_isolates_failure {H : Type} (k k1 : KernelRunner H) (budget : ℚ)
    (fuel : Nat) (S : Int) (msg : String) (j : Nat) (d : Nat → NNRat) (hfuel : j < fuel)
    (hfail : k.allocateInput S = .error msg ∨
      ∃ buf, k.allocateInput S = .ok buf ∧
        (∀ i, i < j → k.invoke S buf i = .ok (d i)) ∧
        ∑ l ∈ Finset.range j, (d l : ℚ) < budget ∧
        k.invoke S buf j = .error msg)
    (halloc : ∀ size, size ≠ S → k1.allocateInput size = k.allocateInput size)
    (hinv : ∀ size buf i, size ≠ S → k1.invoke size buf i = k.invoke size buf i) :
    ∀ (sizes : List Int) (calls1 : List Call) (records1 : List MeasurementRecord),
      measureAll k1 budget fuel sizes = some (calls1, records1) →
      ∃ calls records, measureAll k budget fuel sizes = some (calls, records) ∧
        ∀ (i : Nat) (r : MeasurementRecord), records[i]? = some r →
          (r.size = S → r = ⟨S, .errorMessage msg⟩) ∧
          (r.size ≠ S → records1[i]? = some r) := by
  intro sizes
  induction sizes with
  | nil =>
    intro calls1 records1 _
    refine ⟨[], [], rfl, ?_⟩
    intro i r hr
    simp at hr
  | cons size rest ih =>
    intro calls1 records1 h1
    obtain ⟨c, r1, c1, rs1, hms, hma, _, hrs⟩ := measureAll_cons_eq_some k1 budget fuel size rest
      calls1 records1 h1
    obtain ⟨calls, records, hrec, hprop⟩ := ih c1 rs1 hma
    by_cases hS : size = S
    · subst hS
      obtain ⟨c0, hc0⟩ := measureSize_failure k budget fuel size msg j d hfuel hfail
      refine ⟨c0 ++ calls, ⟨size, .errorMessage msg⟩ :: records, ?_, ?_⟩
      · unfold measureAll
        rw [hc0, hrec]
      · intro i r hr
        cases i with
        | zero =>
          simp only [List.getElem?_cons_zero, Option.some.injEq] at hr
          subst hr
          exact ⟨fun _ => rfl, fun hne => absurd rfl hne⟩
        | succ i1 =>
          simp only [List.getElem?_cons_succ] at hr
          rw [hrs, List.getElem?_cons_succ]
          exact hprop i1 r hr
    · have hsame : measureSize k1 budget fuel size = measureSize k budget fuel size :=
        measureSize_congr k k1 budget fuel size (halloc size hS)
          (fun buf i => hinv size buf i hS)
      rw [hsame] at hms
      refine ⟨c ++ calls, r1 :: records, ?_, ?_⟩
      · unfold measureAll
        rw [hms, hrec]
      · intro i r hr
        cases i with
        | zero =>
          simp only [List.getElem?_cons_zero, Option.some.injEq] at hr
          subst hr
          refine ⟨fun hsz => ?_, fun _ => by rw [hrs, List.getElem?_cons_zero]⟩
          exact absurd ((measureSize_size k budget fuel size c r1 hms).symm.trans hsz) hS
        | succ i1 =>
          simp only [List.getElem?_cons_succ] at hr
          rw [hrs, List.getElem?_cons_succ]
          exact hprop i1 r hr

end Driver

namespace Driver

/-- C4, as amended: let the Kernel Runner `k` fail on size `S` with the message `msg`:
the allocation for `S` fails, or its first `j` invocations succeed with readings
that stay below the budget and invocation number `j` fails (`j = 0` is a failure of
the first invocation).  Let `k1` be any runner that behaves as `k` on every other
size (the same run, had `S` not failed).  Then for a valid request, whenever the run
against `k1` returns its records, the run against `k` returns too (with any fuel
that is no smaller and allows `j + 1` repetitions), with one record per size: every
record for `S` carries exactly the message `msg` as its error message and no
average, and every other record is identical to the record at the same position of
the run against `k1`. -/
theorem failure_is_isolated {H : Type} (k k1 : KernelRunner H) (req : BenchmarkRequest)
    (hvalid : validRequest req) (S : Int) (msg : String) (j : Nat) (d : Nat → NNRat)
    (hfail : k.allocateInput S = .error msg ∨
      ∃ buf, k.allocateInput S = .ok buf ∧
        (∀ i, i < j → k.invoke S buf i = .ok (d i)) ∧
        ∑ l ∈ Finset.range j, (d l : ℚ) < req.minTimeBudget ∧
        k.invoke S buf j = .error msg)
    (halloc : ∀ size, size ≠ S → k1.allocateInput size = k.allocateInput size)
    (hinv : ∀ size buf i, size ≠ S → k1.invoke size buf i = k.invoke size buf i)
    (fuel1 : Nat) (calls1 : List Call) (records1 : List MeasurementRecord)
    (hrun1 : run k1 fuel1 req = some (calls1, .ok records1))
    (fuel : Nat) (hfuel1 : fuel1 ≤ fuel) (hfuel : j < fuel) :
    ∃ calls records, run k fuel req = some (calls, .ok records) ∧
      records.length = req.sizes.length ∧
      ∀ (i : Nat) (r : MeasurementRecord), records[i]? = some r →
        req.sizes[i]? = some r.size ∧
        (r.size = S → r.errorMessage? = some msg ∧ r.averageDurationNanos? = none) ∧
        (r.size ≠ S → records1[i]? = some r) := by
  have hma1 : measureAll k1 req.minTimeBudget fuel req.sizes = some (calls1, records1) := by
    apply measureAll_mono k1 req.minTimeBudget fuel1 fuel hfuel1
    unfold run at hrun1
    rw [if_pos hvalid] at hrun1
    split at hrun1
    · simp at hrun1
    · rename_i c rs hma
      simp only [Option.some.injEq, Prod.mk.injEq, Except.ok.injEq] at hrun1
      rw [hma, hrun1.1, hrun1.2]
  obtain ⟨calls, records, hma, hprop⟩ := measureAll_isolates_failure k k1 req.minTimeBudget
    fuel S msg j d hfuel hfail halloc hinv req.sizes calls1 records1 hma1
  have hmap := measureAll_sizes k req.minTimeBudget fuel req.sizes calls records hma
  refine ⟨calls, records, ?_, ?_, ?_⟩
  · unfold run
    rw [if_pos hvalid, hma]
  · rw [← hmap, List.length_map]
  · intro i r hr
    obtain ⟨h1, h2⟩ := hprop i r hr
    refine ⟨?_, fun hS => ?_, h2⟩
    · rw [← hmap, List.getElem?_map, hr]
      rfl
    · rw [h1 hS]
      exact ⟨rfl, rfl⟩

/-- Witness of C4: sizes 16 and 32 with budget 25 against the runner taking 10 per call
whose second invocation for 32 fails with "boom": the record for 32 carries "boom",
the record for 16 is the one of the run against the runner that never fails. -/
theorem failure_is_isolated_witness :
    ∃ calls records,
      run (failingAt 32 1 "boom" (mockRunner 10)) 3 { sizes := [16, 32], minTimeBudget := 25 } =
        some (calls, .ok records) ∧
      records.length = 2 ∧
      ∀ (i : Nat) (r : MeasurementRecord), records[i]? = some r →
        ([16, 32] : List Int)[i]? = some r.size ∧
        (r.size = 32 → r.errorMessage? = some "boom" ∧ r.averageDurationNanos? = none) ∧
        (r.size ≠ 32 →
          [(⟨16, .averageDurationNanos ((0 + 10 + 10 + 10) / 3)⟩ : MeasurementRecord),
            ⟨32, .averageDurationNanos ((0 + 10 + 10 + 10) / 3)⟩][i]? = some r) := by
  have hvalid : validRequest { sizes := [16, 32], minTimeBudget := 25 } := by
    refine ⟨by simp, ?_, by norm_num⟩
    intro s hs
    simp only [List.mem_cons, List.mem_singleton, List.not_mem_nil, or_false] at hs
    omega
  have hrun1 : run (mockRunner 10) 3 { sizes := [16, 32], minTimeBudget := 25 } =
      some ([Call.allocateInput 16, Call.invoke 16, Call.invoke 16, Call.invoke 16,
          Call.releaseInput 16, Call.allocateInput 32, Call.invoke 32, Call.invoke 32,
          Call.invoke 32, Call.releaseInput 32],
        .ok [⟨16, .averageDurationNanos ((0 + 10 + 10 + 10) / 3)⟩,
          ⟨32, .averageDurationNanos ((0 + 10 + 10 + 10) / 3)⟩]) := by
    unfold run
    rw [if_pos hvalid]
    simp [measureAll, measureSize, repetitionLoop, mockRunner]
    norm_num
  exact failure_is_isolated (failingAt 32 1 "boom" (mockRunner 10)) (mockRunner 10)
    { sizes := [16, 32], minTimeBudget := 25 } hvalid 32 "boom" 1 (fun _ => 10)
    (Or.inr ⟨(), rfl,
      fun i hi => by
        have hi0 : i = 0 := by omega
        subst hi0
        simp [failingAt, mockRunner],
      by simp; norm_num,
      by simp [failingAt]⟩)
    (fun _ _ => rfl)
    (fun size _ _ hne => by simp [failingAt, hne])
    3 _ _ hrun1 3 (le_refl 3) (by norm_num)

/-- C4 as stated does not hold when the failure carries an empty message: against the
runner taking 10 per call that fails on size 32 with the message "", the valid
request for sizes 16 and 32 with budget 25 gets for 32 a failure record whose error
message is the empty string. -/
theorem failure_message_can_be_empty :
    validRequest { sizes := [16, 32], minTimeBudget := 25 } ∧
      (∀ size, (failingOn 32 "" (mockRunner 10)).allocateInput size = .ok ()) ∧
      (∀ buf i, (failingOn 32 "" (mockRunner 10)).invoke 32 buf i = .error "") ∧
      (∀ size buf i, size ≠ 32 →
        (failingOn 32 "" (mockRunner 10)).invoke size buf i = .ok 10) ∧
      run (failingOn 32 "" (mockRunner 10)) 3 { sizes := [16, 32], minTimeBudget := 25 } =
        some ([Call.allocateInput 16, Call.invoke 16, Call.invoke 16, Call.invoke 16,
            Call.releaseInput 16, Call.allocateInput 32, Call.invoke 32,
            Call.releaseInput 32],
          .ok [⟨16, .averageDurationNanos 10⟩, ⟨32, .errorMessage ""⟩]) ∧
      ¬ ∃ m, (⟨32, .errorMessage ""⟩ : MeasurementRecord).errorMessage? = some m ∧ m ≠ "" := by
  have hvalid : validRequest { sizes := [16, 32], minTimeBudget := 25 } := by
    refine ⟨by simp, ?_, by norm_num⟩
    intro s hs
    simp only [List.mem_cons, List.mem_singleton, List.not_mem_nil, or_false] at hs
    omega
  refine ⟨hvalid, fun _ => rfl, fun _ _ => by simp [failingOn],
    fun size _ _ hne => by simp [failingOn, mockRunner, hne], ?_, ?_⟩
  · unfold run
    rw [if_pos hvalid]
    simp [measureAll, measureSize, repetitionLoop, failingOn, mockRunner]
    norm_num
  · rintro ⟨m, hm, hne⟩
    simp only [MeasurementRecord.errorMessage?, Option.some.injEq] at hm
    exact hne hm.symm

end Driver
